import Mathlib

/-!
Verification of the filing document resolution engine of the finance_data
repository, embedded shallowly from the three Python scripts under
src/script (download_10k.py, download_10k_v2.py, download_10k_pdf.py).

Modelling conventions:
- Byte strings (HTTP payloads, file contents) are modelled as Lean `String`
  over their characters; the UTF-8 decode with ignored errors in the source
  is the identity on the ASCII data these functions inspect.
- The network is an explicit oracle mapping a URL to an optional payload
  (`none` models a transport or HTTP error raised by `requests`).
- The local directory is an association list from file name to contents;
  a write with mode `wb` replaces any previous entry.
- Declared sizes from the directory index are natural numbers; the source
  coerces them with `int(...)` falling back to 0, which is the identity here.
-/

namespace FinanceData

/-- Python substring test `needle in hay` over the characters of the strings. -/
def strContains (hay needle : String) : Bool :=
  (List.range (hay.toList.length + 1)).any fun i =>
    needle.toList.isPrefixOf (hay.toList.drop i)

/-- Python `s.lower()` (ASCII case folding, as used on file names and headers). -/
def strLower (s : String) : String :=
  String.mk (s.toList.map Char.toLower)

/-- Python `s.upper()` (ASCII case folding, as used on tickers). -/
def strUpper (s : String) : String :=
  String.mk (s.toList.map Char.toUpper)

/-- Python `s.endswith(suf)`. -/
def strEndsWith (s suf : String) : Bool :=
  suf.toList.isSuffixOf s.toList

/-- Python `s.replace("-", "")`. -/
def stripDashes (s : String) : String :=
  String.mk (s.toList.filter fun c => decide (c ≠ '-'))

/-- One raw entry of the filing directory listing (index.json `item`):
name, declared byte size, declared type. From `get_filing_index`. -/
structure IndexItem where
  name : String
  size : Nat
  typ : String
deriving DecidableEq

/-- One scored HTML document candidate, as accumulated in `htm_docs` in
`SECDownloaderV2.get_filing_index`. -/
structure HtmDoc where
  name : String
  size : Nat
  typ : String
  priority : Nat
deriving DecidableEq

/-- The `excluded_patterns` list of `SECDownloaderV2.get_filing_index`. -/
def excluded_patterns : List String :=
  ["exhibit", "-ex", "_ex", "ex-", "ex_", "index.htm", "index.html",
   ".jpg", ".gif", ".png"]

/-- Entry names accepted by `name.endswith((".htm", ".html"))`. -/
def isHtmlName (name : String) : Bool :=
  strEndsWith name ".htm" || strEndsWith name ".html"

/-- Whether `any(x in name_lower for x in excluded_patterns)` holds. -/
def isExcluded (name : String) : Bool :=
  excluded_patterns.any fun p => strContains (strLower name) p

/-- The `"10-k" in name_lower or "10k" in name_lower` test. -/
def hasFormToken (nameLower : String) : Bool :=
  strContains nameLower "10-k" || strContains nameLower "10k"

/-- The priority score accumulated for a surviving entry in
`SECDownloaderV2.get_filing_index` (the four `priority +=` steps). -/
def priorityScore (name : String) (size : Nat) : Nat :=
  (if hasFormToken (strLower name) then 100 else 0) +
  (if (name.toList.take 10).any Char.isDigit then 0 else 50) +
  (if name.toList.length < 20 then 25 else 0) +
  min (size / 10000) 50

/-- Build the scored record appended to `htm_docs` for a surviving entry. -/
def scoreItem (it : IndexItem) : HtmDoc :=
  { name := it.name, size := it.size, typ := it.typ,
    priority := priorityScore it.name it.size }

/-- The descending order used by
`htm_docs.sort(key=lambda x: (x["priority"], x["size"]), reverse=True)`:
`x` may come before `y` when the key of `x` is lexicographically at least
the key of `y`. -/
def docKeyGE (x y : HtmDoc) : Prop :=
  y.priority < x.priority ∨ (x.priority = y.priority ∧ y.size ≤ x.size)

instance decDocKeyGE : DecidableRel docKeyGE := fun x y =>
  decidable_of_iff
    (y.priority < x.priority ∨ (x.priority = y.priority ∧ y.size ≤ x.size))
    Iff.rfl

instance : IsTotal HtmDoc docKeyGE :=
  ⟨fun x y => by unfold docKeyGE; omega⟩

instance : IsTrans HtmDoc docKeyGE :=
  ⟨fun a b c hab hbc => by unfold docKeyGE at hab hbc ⊢; omega⟩

/-- The sort of the scored candidates. Both Python list.sort and
`List.insertionSort` are stable sorts for the same total preorder, so they
agree on every input. -/
def sortDocs (docs : List HtmDoc) : List HtmDoc :=
  List.insertionSort docKeyGE docs

/-- The `documents` list produced by `SECDownloaderV2.get_filing_index`
from the raw directory items: keep HTML names that match no excluded
pattern, score each, and sort descending by (priority, size). -/
def get_filing_index_docs (items : List IndexItem) : List HtmDoc :=
  sortDocs ((items.filter fun it => isHtmlName it.name && !isExcluded it.name).map scoreItem)

/-- One filing record as assembled by `get_10k_filings` (both versions). -/
structure FilingInfo where
  company : String
  cik : String
  accessionNumber : String
  filingDate : String
  reportDate : String
  primaryDocument : String
deriving DecidableEq

/-- One position of the parallel arrays of the submissions feed
(`form`, `accessionNumber`, `filingDate`, `reportDate`, `primaryDocument`
share one index space, so a position is a row). -/
structure FeedRow where
  form : String
  accessionNumber : String
  filingDate : String
  reportDate : String
  primaryDocument : String
deriving DecidableEq

/-- The dictionary built for one matching position of the feed. -/
def mkFiling (company cik : String) (r : FeedRow) : FilingInfo :=
  { company := company, cik := cik, accessionNumber := r.accessionNumber,
    filingDate := r.filingDate, reportDate := r.reportDate,
    primaryDocument := r.primaryDocument }

/-- The selection loop of `get_10k_filings` (v1 and v2 share it): walk the
feed positions in order and append a record while the form is `10-K` and
fewer than `count` records have been collected. -/
def get_10k_filings (company cik : String) (rows : List FeedRow) (count : Nat) :
    List FilingInfo :=
  rows.foldl
    (fun acc r =>
      if r.form = "10-K" ∧ acc.length < count then acc ++ [mkFiling company cik r]
      else acc)
    []

/-- The static `TICKER_TO_CIK` table shared by both downloader versions. -/
def TICKER_TO_CIK : List (String × String) :=
  [("AAPL", "0000320193"), ("MSFT", "0000789019"), ("GOOGL", "0001652044"),
   ("GOOG", "0001652044"), ("AMZN", "0001018724"), ("TSLA", "0001318605"),
   ("META", "0001326801"), ("NVDA", "0001045810"), ("JPM", "0000019617"),
   ("V", "0001403161"), ("WMT", "0000104169"), ("DIS", "0001744489"),
   ("NFLX", "0001065280"), ("PYPL", "0001633917"), ("INTC", "0000050863"),
   ("AMD", "0000002488"), ("ORCL", "0001341439"), ("IBM", "0000051143"),
   ("CSCO", "0000858877"), ("BA", "0000012927")]

/-- `SECDownloaderV2.get_cik`: upper-case the ticker, look it up in the
static table, otherwise print a hint and return `None`. The second
component records the outbound requests performed by the call; the source
performs none on either path. -/
def get_cik (ticker : String) : Option String × List String :=
  let t := strUpper ticker
  match TICKER_TO_CIK.find? fun p => decide (p.1 = t) with
  | some p => (some p.2, [])
  | none => (none, [])

/-- `SECDownloader.get_cik_from_ticker` (v1): the same table and the same
outcome; its fallback branch only builds a search URL string and prints a
hint inside a try/except, performing no request, and returns `None`. -/
def get_cik_from_ticker (ticker : String) : Option String × List String :=
  let t := strUpper ticker
  match TICKER_TO_CIK.find? fun p => decide (p.1 = t) with
  | some p => (some p.2, [])
  | none => (none, [])

/-- The ten decimal digit characters; a Python all-digit string is one
whose characters all belong to this list. -/
def digitChars : List Char := ['0', '1', '2', '3', '4', '5', '6', '7', '8', '9']

/-- Decimal value of a digit character (ASCII). -/
def digitVal (c : Char) : Nat := c.toNat - 48

/-- Character of a decimal digit value. -/
def digitChar : Nat → Char
  | 0 => '0'
  | 1 => '1'
  | 2 => '2'
  | 3 => '3'
  | 4 => '4'
  | 5 => '5'
  | 6 => '6'
  | 7 => '7'
  | 8 => '8'
  | 9 => '9'
  | _ => 'X'

/-- Python `int(s)` on a string of decimal digits. -/
def natParse (l : List Char) : Nat :=
  l.foldl (fun n c => 10 * n + digitVal c) 0

/-- Helper for `natPrint`: structural recursion on a fuel bound, so the
function computes by kernel reduction; any fuel above `n` prints `n`. -/
def natPrintAux : Nat → Nat → List Char
  | 0, _ => []
  | fuel + 1, n =>
    if n < 10 then [digitChar n]
    else natPrintAux fuel (n / 10) ++ [digitChar (n % 10)]

/-- Python `str(n)` for a natural number. -/
def natPrint (n : Nat) : List Char :=
  natPrintAux (n + 1) n

/-- Python `accession_number.split("-")[0]`: the characters before the
first dash. -/
def accessionPre (s : String) : List Char :=
  s.toList.takeWhile fun c => decide (c ≠ '-')

/-- The v1 leading-zero stripping of `SECDownloader.download_filing`:
`accession_number.split("-")[0].lstrip("0") or "0"`. -/
def v1_accession_cik (s : String) : String :=
  let stripped := (accessionPre s).dropWhile fun c => decide (c = '0')
  if stripped = [] then "0" else String.mk stripped

/-- The v2 leading-zero stripping of `SECDownloaderV2.get_filing_index` and
`SECDownloaderV2.download_document`: `str(int(accession_number.split("-")[0]))`. -/
def v2_accession_cik (s : String) : String :=
  String.mk (natPrint (natParse (accessionPre s)))

/-- The document URL built by `SECDownloaderV2.download_document`. -/
def documentUrl (accession_number document_name : String) : String :=
  "https://www.sec.gov/Archives/edgar/data/" ++ v2_accession_cik accession_number
    ++ "/" ++ stripDashes accession_number ++ "/" ++ document_name

/-- The XBRL indicator substrings of `SECDownloaderV2.is_xbrl_file`. -/
def xbrlIndicators : List String :=
  ["xmlns:xbrl", "xmlns:ix", "inlinexbrl", "xbrl.org/2013/inlinexbrl",
   "<?xml version", "xbrl document created"]

/-- `SECDownloaderV2.is_xbrl_file`: lower-case the first 2000 bytes of the
content and test each indicator for substring occurrence. -/
def is_xbrl_file (content : String) : Bool :=
  let header := strLower (String.mk (content.toList.take 2000))
  xbrlIndicators.any fun ind => strContains header ind

/-- The local output directory as an association list from file name to
contents. -/
abbrev FS := List (String × String)

/-- Look a file up by name. -/
def fsLookup (fs : FS) (name : String) : Option String :=
  (fs.find? fun p => decide (p.1 = name)).map Prod.snd

/-- Open with mode `wb` and write: any previous entry is replaced. -/
def fsWrite (fs : FS) (name content : String) : FS :=
  (name, content) :: fs.filter fun p => decide (p.1 ≠ name)

/-- `Path.unlink` guarded by `Path.exists`: drop the entry when present. -/
def fsErase (fs : FS) (name : String) : FS :=
  fs.filter fun p => decide (p.1 ≠ name)

/-- The network, as an oracle from URL to optional payload. `none` models
any transport or HTTP error raised by the request. -/
abbrev Fetch := String → Option String

/-- `SECDownloaderV2.download_document`: fetch the document URL; on error
report failure; on success reject XBRL payloads, otherwise write the
payload to `output_filename` and report success. The payload is fully
buffered before the write, so a failed attempt writes nothing. -/
def download_document (fetch : Fetch) (accession_number document_name : String)
    (output_filename : String) (fs : FS) : FS × Bool :=
  match fetch (documentUrl accession_number document_name) with
  | none => (fs, false)
  | some content =>
    if is_xbrl_file content then (fs, false)
    else (fsWrite fs output_filename content, true)

/-- `doc_name.split(".")[-1] if "." in doc_name else "htm"`. -/
def extOf (doc_name : String) : String :=
  if doc_name.toList.contains '.' then
    String.mk ((doc_name.toList.reverse.takeWhile fun c => decide (c ≠ '.')).reverse)
  else "htm"

/-- The target file name `{ticker}_{report_date}_10K_filed_{filing_date}.{ext}`
of `SECDownloaderV2.download_10k`. -/
def outputName (ticker : String) (fi : FilingInfo) (doc_name : String) : String :=
  ticker ++ "_" ++ fi.reportDate ++ "_10K_filed_" ++ fi.filingDate ++ "." ++ extOf doc_name

/-- The `if fb not in documents_to_try: documents_to_try.append(fb)` step
used by every strategy of `SECDownloaderV2.download_10k`. -/
def appendIfNew (acc : List String) (x : String) : List String :=
  if x ∈ acc then acc else acc ++ [x]

/-- The strategy-4 conventional name guesses of `SECDownloaderV2.download_10k`. -/
def fallbackNames (ticker reportDate : String) : List String :=
  [strLower ticker ++ "10k_" ++ stripDashes reportDate ++ ".htm",
   strLower ticker ++ "_10k.htm", "form10-k.htm", "form10k.htm"]

/-- The candidate list assembly of `SECDownloaderV2.download_10k`:
the combined submission text first, then the top three index documents,
then the declared primary document (when present and new), then the
conventional guesses, each appended only when not already present.
`indexDocs` is the (already sorted) document list from the index; a failed
index fetch is the empty list, for which strategy 2 contributes nothing. -/
def documents_to_try (fi : FilingInfo) (ticker : String) (indexDocs : List HtmDoc) :
    List String :=
  let txtName := stripDashes fi.accessionNumber ++ ".txt"
  let l1 := [txtName]
  let l2 := ((indexDocs.take 3).map HtmDoc.name).foldl appendIfNew l1
  let l3 := if fi.primaryDocument ≠ "" then appendIfNew l2 fi.primaryDocument else l2
  (fallbackNames ticker fi.reportDate).foldl appendIfNew l3

/-- The attempt loop of `SECDownloaderV2.download_10k`: try the candidates
in order, stop at the first success. Returns the directory state, the
outcome, and the list of candidates actually fetched (each attempt is one
outbound request). -/
def tryDocuments (fetch : Fetch) (ticker : String) (fi : FilingInfo) (fs : FS) :
    List String → FS × Bool × List String
  | [] => (fs, false, [])
  | d :: rest =>
    let res := download_document fetch fi.accessionNumber d (outputName ticker fi d) fs
    if res.2 then (res.1, true, [d])
    else
      let next := tryDocuments fetch ticker fi res.1 rest
      (next.1, next.2.1, d :: next.2.2)

/-- `SECDownloaderV2.download_10k` for one filing: build the candidate list
and run the attempt loop. -/
def download_10k (fetch : Fetch) (ticker : String) (fi : FilingInfo)
    (indexDocs : List HtmDoc) (fs : FS) : FS × Bool × List String :=
  tryDocuments fetch ticker fi fs (documents_to_try fi ticker indexDocs)

/-- Outcome of one PDF request in `AnnualReportsPDFDownloader.download_pdf`:
an error before any byte is written, a stream failing after a partial
write, or a complete payload. -/
inductive PdfFetch where
  | fail : PdfFetch
  | midFail : String → PdfFetch
  | ok : String → PdfFetch
deriving DecidableEq

/-- `AnnualReportsPDFDownloader.download_pdf`: on success write the payload;
on any failure the except block removes the target path when it exists, so
a truncated write never survives. -/
def download_pdf (result : PdfFetch) (filepath : String) (fs : FS) : FS × Bool :=
  match result with
  | .fail => (fsErase fs filepath, false)
  | .midFail part => (fsErase (fsWrite fs filepath part) filepath, false)
  | .ok content => (fsWrite fs filepath content, true)

/-- One iteration of the download loop of
`AnnualReportsPDFDownloader.download_all` (lines 263-271): when the target
already exists it is reported as a success without any request, otherwise
`download_pdf` runs. The third component records whether a request was
performed. -/
def process_pdf_report (result : PdfFetch) (filepath : String) (fs : FS) :
    FS × Bool × Bool :=
  if (fsLookup fs filepath).isSome then (fs, true, false)
  else
    let r := download_pdf result filepath fs
    (r.1, r.2, true)

/-- The priority score as the specification words it: plus 100 when the
lower-cased name bears a form-type token, plus 50 when the first 10
characters hold no digit, plus 25 when the name is shorter than 20
characters, plus the declared size divided by 10000 capped at 50. -/
def specScore (name : String) (size : Nat) : Nat :=
  (if hasFormToken (strLower name) then 100 else 0) +
  (if (name.toList.take 10).all (fun c => !c.isDigit) then 50 else 0) +
  (if name.toList.length < 20 then 25 else 0) +
  min (size / 10000) 50

/-- First-occurrence-wins de-duplication: keep each name at its first
occurrence and drop all later repeats. -/
def dedupKeepFirst : List String → List String
  | [] => []
  | x :: xs => x :: dedupKeepFirst (xs.filter fun y => decide (y ≠ x))
termination_by l => l.length
decreasing_by
  simp only [List.length_cons]
  exact Nat.lt_succ_of_le (List.length_filter_le _ _)

/-- The four candidate strategies of `download_10k`, concatenated in their
stated priority order, before de-duplication. -/
def strategyConcat (fi : FilingInfo) (ticker : String) (indexDocs : List HtmDoc) :
    List String :=
  [stripDashes fi.accessionNumber ++ ".txt"]
    ++ (indexDocs.take 3).map HtmDoc.name
    ++ (if fi.primaryDocument ≠ "" then [fi.primaryDocument] else [])
    ++ fallbackNames ticker fi.reportDate

/-- The TSLA filing of the end-to-end scenario, as assembled from the
catalog feed. -/
def tslaFiling : FilingInfo :=
  { company := "Tesla, Inc.", cik := "0001318605",
    accessionNumber := "0001318605-24-000002", filingDate := "2024-01-25",
    reportDate := "2023-12-31", primaryDocument := "tsla-20231231.htm" }

/-- Oracle for the re-run scenario: the combined submission text candidate
is served with fresh non-XBRL bytes; everything else is unreachable. -/
def rerunFetch : Fetch := fun url =>
  if url = documentUrl "0001318605-24-000002" "000131860524000002.txt"
  then some "Tesla annual report, new revision" else none

/-- Directory state in which the target of the combined-text candidate has
already been saved by a previous run. -/
def rerunFs : FS := [("TSLA_2023-12-31_10K_filed_2024-01-25.txt", "old saved bytes")]

/-- The dated Tesla rendering of the end-to-end scenario directory. -/
def tslaItem : IndexItem :=
  { name := "tsla-20231231.htm", size := 500000, typ := "10-K" }

/-- The agreement exhibit of the end-to-end scenario directory. -/
def ex10Item : IndexItem :=
  { name := "ex10_agreement.htm", size := 80000, typ := "EX-10" }

/-- Oracle of the scenario: the combined submission text fails with an
HTTP error, the dated rendering is served with readable HTML, and
everything else is unreachable. -/
def scenarioFetch : Fetch := fun url =>
  if url = documentUrl "0001318605-24-000002" "tsla-20231231.htm"
  then some "<html><body>Tesla 10-K annual report</body></html>" else none

/-! ### Theorems -/

theorem all_not_digit (l : List Char) :
    (l.all fun c => !c.isDigit) = !(l.any Char.isDigit) := by
  induction l with
  | nil => rfl
  | cons c cs ih => simp [List.all_cons, List.any_cons, Bool.not_or, ih]

theorem priorityScore_eq_specScore (name : String) (size : Nat) :
    priorityScore name size = specScore name size := by
  unfold priorityScore specScore
  rw [all_not_digit]
  cases h : (name.toList.take 10).any Char.isDigit <;> simp [h]

/-- C2: every surviving directory-listing entry is scored as the sum of the
four stated bonuses (+100 form-type token in the lower-cased name, +50 no
digit among the first 10 characters, +25 name shorter than 20 characters,
plus size divided by 10000 capped at 50), and the survivors are sorted
descending with the score as primary key and the size as tie break. -/
theorem c2_scoring_and_order (items : List IndexItem) :
    (∀ d ∈ get_filing_index_docs items, d.priority = specScore d.name d.size) ∧
    List.Pairwise (fun x y : HtmDoc =>
      y.priority < x.priority ∨ (x.priority = y.priority ∧ y.size ≤ x.size))
      (get_filing_index_docs items) ∧
    List.Perm (get_filing_index_docs items)
      ((items.filter fun it => isHtmlName it.name && !isExcluded it.name).map scoreItem) := by
  refine ⟨?_, ?_, ?_⟩
  · intro d hd
    unfold get_filing_index_docs sortDocs at hd
    rw [List.mem_insertionSort] at hd
    obtain ⟨it, hit, rfl⟩ := List.mem_map.mp hd
    simpa [scoreItem] using priorityScore_eq_specScore it.name it.size
  · exact List.sorted_insertionSort docKeyGE _
  · exact List.perm_insertionSort docKeyGE _

theorem pairwise_before {α : Type} {R : α → α → Prop} :
    ∀ {l : List α} {a b : α}, l.Pairwise R → a ∈ l → b ∈ l → ¬ R b a → a ≠ b →
      List.Sublist [a, b] l := by
  intro l
  induction l with
  | nil => intro a b _ ha _ _ _; exact absurd ha (List.not_mem_nil a)
  | cons x t ih =>
    intro a b hp ha hb hnr hne
    rw [List.pairwise_cons] at hp
    rcases List.mem_cons.mp ha with rfl | hat
    · have hbt : b ∈ t := by
        rcases List.mem_cons.mp hb with rfl | h
        · exact absurd rfl hne
        · exact h
      exact (List.singleton_sublist.mpr hbt).cons₂ a
    · rcases List.mem_cons.mp hb with rfl | hbt
      · exact absurd (hp.1 a hat) hnr
      · exact (ih hp.2 hat hbt hnr hne).cons x

theorem score_token_gt (an bn : String) (s : Nat)
    (hta : hasFormToken (strLower an) = true)
    (htb : hasFormToken (strLower bn) = false) :
    priorityScore bn s < priorityScore an s := by
  unfold priorityScore
  rw [if_pos hta, if_neg (show ¬ hasFormToken (strLower bn) = true by simp [htb])]
  generalize min (s / 10000) 50 = m
  split_ifs <;> omega

/-- C7: among surviving directory candidates of equal declared size, one
whose lower-cased name bears a form-type token and one whose name does not,
the token-bearing candidate scores strictly higher and is placed strictly
before the other by the descending sort of `get_filing_index`, whatever the
shared declared size is. -/
theorem c7_token_sorts_first (items : List IndexItem) (a b : IndexItem)
    (ha : a ∈ items) (hb : b ∈ items)
    (hka : (isHtmlName a.name && !isExcluded a.name) = true)
    (hkb : (isHtmlName b.name && !isExcluded b.name) = true)
    (hsize : a.size = b.size)
    (hta : hasFormToken (strLower a.name) = true)
    (htb : hasFormToken (strLower b.name) = false) :
    (scoreItem b).priority < (scoreItem a).priority ∧
    List.Sublist [scoreItem a, scoreItem b] (get_filing_index_docs items) := by
  have hscore : (scoreItem b).priority < (scoreItem a).priority := by
    simp only [scoreItem]
    rw [hsize]
    exact score_token_gt a.name b.name b.size hta htb
  refine ⟨hscore, ?_⟩
  have hma : scoreItem a ∈ get_filing_index_docs items := by
    unfold get_filing_index_docs sortDocs
    rw [List.mem_insertionSort]
    exact List.mem_map_of_mem scoreItem (List.mem_filter.mpr ⟨ha, hka⟩)
  have hmb : scoreItem b ∈ get_filing_index_docs items := by
    unfold get_filing_index_docs sortDocs
    rw [List.mem_insertionSort]
    exact List.mem_map_of_mem scoreItem (List.mem_filter.mpr ⟨hb, hkb⟩)
  have hne : scoreItem a ≠ scoreItem b := by
    intro h
    have hn : a.name = b.name := congrArg HtmDoc.name h
    rw [hn] at hta
    cases hta.symm.trans htb
  have hnr : ¬ docKeyGE (scoreItem b) (scoreItem a) := by
    unfold docKeyGE
    omega
  exact pairwise_before (List.sorted_insertionSort docKeyGE _) hma hmb hnr hne

theorem c7_witness :
    (scoreItem ⟨"report.htm", 100000, ""⟩).priority <
      (scoreItem ⟨"form10-k.htm", 100000, ""⟩).priority ∧
    List.Sublist [scoreItem ⟨"form10-k.htm", 100000, ""⟩, scoreItem ⟨"report.htm", 100000, ""⟩]
      (get_filing_index_docs [⟨"form10-k.htm", 100000, ""⟩, ⟨"report.htm", 100000, ""⟩]) :=
  c7_token_sorts_first [⟨"form10-k.htm", 100000, ""⟩, ⟨"report.htm", 100000, ""⟩]
    ⟨"form10-k.htm", 100000, ""⟩ ⟨"report.htm", 100000, ""⟩
    (by decide) (by decide) (by decide) (by decide) rfl (by decide) (by decide)

theorem get10k_foldl (company cik : String) (count : Nat) :
    ∀ (rows : List FeedRow) (acc : List FilingInfo),
      rows.foldl
        (fun acc r =>
          if r.form = "10-K" ∧ acc.length < count then acc ++ [mkFiling company cik r]
          else acc) acc
      = acc ++ ((rows.filter fun r => decide (r.form = "10-K")).take
          (count - acc.length)).map (mkFiling company cik) := by
  intro rows
  induction rows with
  | nil => intro acc; simp
  | cons r rest ih =>
    intro acc
    rw [List.foldl_cons]
    by_cases hform : r.form = "10-K"
    · by_cases hlen : acc.length < count
      · rw [if_pos ⟨hform, hlen⟩, ih, List.filter_cons_of_pos (by simp [hform])]
        obtain ⟨k, hk⟩ : ∃ k, count - acc.length = k + 1 :=
          ⟨count - acc.length - 1, by omega⟩
        have hk2 : count - (acc ++ [mkFiling company cik r]).length = k := by
          simp only [List.length_append, List.length_singleton]
          omega
        rw [hk, hk2, List.take_succ_cons, List.map_cons, List.append_assoc,
          List.singleton_append]
      · rw [if_neg (fun h => hlen h.2), ih, List.filter_cons_of_pos (by simp [hform])]
        have h0 : count - acc.length = 0 := by omega
        rw [h0, List.take_zero, List.take_zero]
    · rw [if_neg (fun h => hform h.1), ih, List.filter_cons_of_neg (by simp [hform])]

/-- C6: for every feed of parallel arrays (modelled as rows sharing one
index space) and every limit, the returned records are exactly the first
`limit` positional matches of the requested form, so the result never
exceeds `limit`, every record stems from a position of the requested
filing type, and records keep the original relative order of the feed. -/
theorem c6_filing_selection (company cik : String) (rows : List FeedRow) (count : Nat) :
    get_10k_filings company cik rows count
      = ((rows.filter fun r => decide (r.form = "10-K")).take count).map
          (mkFiling company cik) ∧
    (get_10k_filings company cik rows count).length ≤ count ∧
    (∀ f ∈ get_10k_filings company cik rows count,
      ∃ r ∈ rows, r.form = "10-K" ∧ f = mkFiling company cik r) := by
  have h := get10k_foldl company cik count rows []
  simp only [List.nil_append, List.length_nil, Nat.sub_zero] at h
  unfold get_10k_filings
  rw [h]
  refine ⟨rfl, ?_, ?_⟩
  · rw [List.length_map, List.length_take]
    exact Nat.min_le_left _ _
  · intro f hf
    obtain ⟨r, hr, rfl⟩ := List.mem_map.mp hf
    have hr2 := List.mem_filter.mp (List.take_subset _ _ hr)
    exact ⟨r, hr2.1, by simpa using hr2.2, rfl⟩

theorem mem_dedupKeepFirst : ∀ (l : List String) (y : String),
    y ∈ dedupKeepFirst l ↔ y ∈ l
  | [], y => by simp [dedupKeepFirst]
  | x :: xs, y => by
    rw [dedupKeepFirst]
    by_cases hyx : y = x
    · subst hyx; simp
    · simp only [List.mem_cons, hyx, false_or]
      rw [mem_dedupKeepFirst]
      simp [List.mem_filter, hyx]
termination_by l _ => l.length
decreasing_by
  simp only [List.length_cons]
  exact Nat.lt_succ_of_le (List.length_filter_le _ _)

theorem nodup_dedupKeepFirst : ∀ l : List String, (dedupKeepFirst l).Nodup
  | [] => by simp [dedupKeepFirst]
  | x :: xs => by
    rw [dedupKeepFirst]
    refine List.nodup_cons.mpr ⟨?_, nodup_dedupKeepFirst _⟩
    intro hx
    rw [mem_dedupKeepFirst] at hx
    have h := (List.mem_filter.mp hx).2
    simp at h
termination_by l => l.length
decreasing_by
  simp only [List.length_cons]
  exact Nat.lt_succ_of_le (List.length_filter_le _ _)

theorem dedupKeepFirst_sublist : ∀ l : List String,
    List.Sublist (dedupKeepFirst l) l
  | [] => by simp [dedupKeepFirst]
  | x :: xs => by
    rw [dedupKeepFirst]
    exact ((dedupKeepFirst_sublist _).trans (List.filter_sublist _)).cons₂ x
termination_by l => l.length
decreasing_by
  simp only [List.length_cons]
  exact Nat.lt_succ_of_le (List.length_filter_le _ _)

theorem foldl_appendIfNew :
    ∀ (l acc : List String),
      l.foldl appendIfNew acc
        = acc ++ dedupKeepFirst (l.filter fun y => decide (y ∉ acc)) := by
  intro l
  induction l with
  | nil => intro acc; simp [dedupKeepFirst]
  | cons x xs ih =>
    intro acc
    rw [List.foldl_cons]
    by_cases hx : x ∈ acc
    · have hstep : appendIfNew acc x = acc := by simp [appendIfNew, hx]
      rw [hstep, ih, List.filter_cons_of_neg (by simp [hx])]
    · have hstep : appendIfNew acc x = acc ++ [x] := by simp [appendIfNew, hx]
      rw [hstep, ih, List.filter_cons_of_pos (by simp [hx]), dedupKeepFirst,
        List.append_assoc, List.singleton_append]
      congr 2
      rw [List.filter_filter]
      exact congrArg dedupKeepFirst (List.filter_congr fun y hy => by
        by_cases h1 : y ∈ acc <;> by_cases h2 : y = x <;> simp [h1, h2])

theorem documents_to_try_eq (fi : FilingInfo) (ticker : String) (indexDocs : List HtmDoc) :
    documents_to_try fi ticker indexDocs
      = (strategyConcat fi ticker indexDocs).foldl appendIfNew [] := by
  simp only [documents_to_try, strategyConcat]
  rw [List.foldl_append, List.foldl_append, List.foldl_append]
  have h1 : List.foldl appendIfNew ([] : List String)
      [stripDashes fi.accessionNumber ++ ".txt"]
      = [stripDashes fi.accessionNumber ++ ".txt"] := by
    simp [appendIfNew]
  rw [h1]
  by_cases hp : fi.primaryDocument ≠ ""
  · rw [if_pos hp, if_pos hp]
    rfl
  · rw [if_neg hp, if_neg hp]
    rfl

/-- C3: the candidate list of `download_10k` equals the
first-occurrence-wins de-duplication of the concatenation of the four
strategies in their stated order: combined submission text first, then the
top three directory entries, then the declared primary document, then the
conventional guesses. Hence the list has no duplicate name, begins with the
combined submission text name, holds exactly the names contributed by the
strategies, and keeps every surviving name at the relative position of its
earliest occurrence (the list is a sublist of the concatenation). -/
theorem c3_candidate_list (fi : FilingInfo) (ticker : String) (indexDocs : List HtmDoc) :
    documents_to_try fi ticker indexDocs
        = dedupKeepFirst (strategyConcat fi ticker indexDocs) ∧
    (documents_to_try fi ticker indexDocs).Nodup ∧
    (documents_to_try fi ticker indexDocs).head?
        = some (stripDashes fi.accessionNumber ++ ".txt") ∧
    (∀ x, x ∈ documents_to_try fi ticker indexDocs ↔
        x ∈ strategyConcat fi ticker indexDocs) ∧
    List.Sublist (documents_to_try fi ticker indexDocs)
      (strategyConcat fi ticker indexDocs) := by
  have heq : documents_to_try fi ticker indexDocs
      = dedupKeepFirst (strategyConcat fi ticker indexDocs) := by
    rw [documents_to_try_eq, foldl_appendIfNew]
    have hfil : (strategyConcat fi ticker indexDocs).filter
        (fun y => decide (y ∉ ([] : List String)))
        = strategyConcat fi ticker indexDocs := by
      apply List.filter_eq_self.mpr
      intro a _
      simp
    rw [hfil, List.nil_append]
  refine ⟨heq, ?_, ?_, ?_, ?_⟩
  · rw [heq]; exact nodup_dedupKeepFirst _
  · rw [heq]
    show (dedupKeepFirst ((stripDashes fi.accessionNumber ++ ".txt") :: _)).head? = _
    rw [dedupKeepFirst]
    rfl
  · intro x; rw [heq]; exact mem_dedupKeepFirst _ x
  · rw [heq]; exact dedupKeepFirst_sublist _

theorem download_document_none (fetch : Fetch) (accession d out : String) (fs : FS)
    (hf : fetch (documentUrl accession d) = none) :
    download_document fetch accession d out fs = (fs, false) := by
  unfold download_document
  rw [hf]

theorem download_document_xbrl (fetch : Fetch) (accession d out : String) (fs : FS)
    (c : String) (hf : fetch (documentUrl accession d) = some c)
    (hx : is_xbrl_file c = true) :
    download_document fetch accession d out fs = (fs, false) := by
  unfold download_document
  rw [hf]
  simp [hx]

theorem download_document_ok (fetch : Fetch) (accession d out : String) (fs : FS)
    (c : String) (hf : fetch (documentUrl accession d) = some c)
    (hx : is_xbrl_file c = false) :
    download_document fetch accession d out fs = (fsWrite fs out c, true) := by
  unfold download_document
  rw [hf]
  simp [hx]

theorem tryDocuments_cons_fail (fetch : Fetch) (ticker : String) (fi : FilingInfo)
    (fs : FS) (d : String) (rest : List String)
    (h : download_document fetch fi.accessionNumber d (outputName ticker fi d) fs
      = (fs, false)) :
    tryDocuments fetch ticker fi fs (d :: rest)
      = ((tryDocuments fetch ticker fi fs rest).1,
         (tryDocuments fetch ticker fi fs rest).2.1,
         d :: (tryDocuments fetch ticker fi fs rest).2.2) := by
  simp [tryDocuments, h]

theorem tryDocuments_cons_succ (fetch : Fetch) (ticker : String) (fi : FilingInfo)
    (fs : FS) (d : String) (rest : List String) (c : String)
    (hf : fetch (documentUrl fi.accessionNumber d) = some c)
    (hx : is_xbrl_file c = false) :
    tryDocuments fetch ticker fi fs (d :: rest)
      = (fsWrite fs (outputName ticker fi d) c, true, [d]) := by
  simp [tryDocuments, download_document_ok fetch fi.accessionNumber d
    (outputName ticker fi d) fs c hf hx]

theorem tryDocuments_exhausted (fetch : Fetch) (ticker : String) (fi : FilingInfo) :
    ∀ (ds : List String) (fs : FS),
      (∀ d ∈ ds, ∀ c, fetch (documentUrl fi.accessionNumber d) = some c →
        is_xbrl_file c = true) →
      tryDocuments fetch ticker fi fs ds = (fs, false, ds) := by
  intro ds
  induction ds with
  | nil => intro fs _; rfl
  | cons d rest ih =>
    intro fs hall
    have hdd : download_document fetch fi.accessionNumber d (outputName ticker fi d) fs
        = (fs, false) := by
      cases hf : fetch (documentUrl fi.accessionNumber d) with
      | none => exact download_document_none fetch _ d _ fs hf
      | some c =>
        exact download_document_xbrl fetch _ d _ fs c hf
          (hall d (List.mem_cons_self d rest) c hf)
    rw [tryDocuments_cons_fail fetch ticker fi fs d rest hdd,
      ih fs (fun d' hd' => hall d' (List.mem_cons_of_mem d hd'))]

theorem getLast?_cons_of_some {α : Type} (x : α) {l : List α} {y : α}
    (h : l.getLast? = some y) : (x :: l).getLast? = some y := by
  cases l with
  | nil => cases h
  | cons a as => rw [List.getLast?_cons_cons]; exact h

theorem tryDocuments_char (fetch : Fetch) (ticker : String) (fi : FilingInfo) :
    ∀ (ds : List String) (fs : FS),
      ((tryDocuments fetch ticker fi fs ds).2.1 = false →
        (tryDocuments fetch ticker fi fs ds).1 = fs ∧
        (tryDocuments fetch ticker fi fs ds).2.2 = ds) ∧
      ((tryDocuments fetch ticker fi fs ds).2.1 = true →
        ∃ d ∈ ds, ∃ c,
          fetch (documentUrl fi.accessionNumber d) = some c ∧
          is_xbrl_file c = false ∧
          (tryDocuments fetch ticker fi fs ds).1
            = fsWrite fs (outputName ticker fi d) c ∧
          (tryDocuments fetch ticker fi fs ds).2.2.getLast? = some d ∧
          ∃ n, (tryDocuments fetch ticker fi fs ds).2.2 = ds.take n) := by
  intro ds
  induction ds with
  | nil =>
    intro fs
    refine ⟨fun _ => ⟨rfl, rfl⟩, fun h => ?_⟩
    simp [tryDocuments] at h
  | cons d rest ih =>
    intro fs
    cases hf : fetch (documentUrl fi.accessionNumber d) with
    | none =>
      have hstep := tryDocuments_cons_fail fetch ticker fi fs d rest
        (download_document_none fetch _ d _ fs hf)
      rw [hstep]
      obtain ⟨ihf, iht⟩ := ih fs
      refine ⟨fun hfalse => ?_, fun htrue => ?_⟩
      · obtain ⟨h1, h2⟩ := ihf hfalse
        exact ⟨h1, by rw [h2]⟩
      · obtain ⟨d', hd', c', hc', hx', hfs', hlast', n, hlog'⟩ := iht htrue
        refine ⟨d', List.mem_cons_of_mem d hd', c', hc', hx', hfs',
          getLast?_cons_of_some d hlast', n + 1, ?_⟩
        rw [List.take_succ_cons, hlog']
    | some c =>
      cases hx : is_xbrl_file c with
      | true =>
        have hstep := tryDocuments_cons_fail fetch ticker fi fs d rest
          (download_document_xbrl fetch _ d _ fs c hf hx)
        rw [hstep]
        obtain ⟨ihf, iht⟩ := ih fs
        refine ⟨fun hfalse => ?_, fun htrue => ?_⟩
        · obtain ⟨h1, h2⟩ := ihf hfalse
          exact ⟨h1, by rw [h2]⟩
        · obtain ⟨d', hd', c', hc', hx', hfs', hlast', n, hlog'⟩ := iht htrue
          refine ⟨d', List.mem_cons_of_mem d hd', c', hc', hx', hfs',
            getLast?_cons_of_some d hlast', n + 1, ?_⟩
          rw [List.take_succ_cons, hlog']
      | false =>
        have hstep := tryDocuments_cons_succ fetch ticker fi fs d rest c hf hx
        rw [hstep]
        refine ⟨fun hfalse => Bool.noConfusion hfalse, fun _ => ?_⟩
        exact ⟨d, List.mem_cons_self d rest, c, hf, hx, rfl, rfl, 1, rfl⟩

/-- C4: a fetched candidate payload whose first 2000 bytes bear one of the
inline-XBRL or XML/XBRL markers is rejected without any write, and
resolution moves to the next candidate; when every candidate of a filing is
unreachable or rejected this way, the engine reports failure after
attempting the whole candidate list and the directory is unchanged, so no
file is saved for that filing. -/
theorem c4_content_sniff (fetch : Fetch) (ticker : String) (fi : FilingInfo)
    (indexDocs : List HtmDoc) (fs : FS)
    (accession document_name output_filename c : String)
    (hfetch : fetch (documentUrl accession document_name) = some c)
    (hmark : ∃ ind ∈ xbrlIndicators,
      strContains (strLower (String.mk (c.toList.take 2000))) ind = true)
    (hall : ∀ d ∈ documents_to_try fi ticker indexDocs, ∀ c',
      fetch (documentUrl fi.accessionNumber d) = some c' →
        is_xbrl_file c' = true) :
    download_document fetch accession document_name output_filename fs = (fs, false) ∧
    download_10k fetch ticker fi indexDocs fs
      = (fs, false, documents_to_try fi ticker indexDocs) := by
  have hx : is_xbrl_file c = true := by
    unfold is_xbrl_file
    rw [List.any_eq_true]
    exact hmark
  constructor
  · exact download_document_xbrl fetch accession document_name output_filename fs c
      hfetch hx
  · exact tryDocuments_exhausted fetch ticker fi _ fs hall

theorem c4_content_sniff_witness :
    (download_document (fun _ => some "<?xml version=1.0?><xbrl>doc</xbrl>")
        "0001318605-24-000002" "tsla-20231231.htm" "out.htm" [] = ([], false)) ∧
    (download_10k (fun _ => some "<?xml version=1.0?><xbrl>doc</xbrl>") "TSLA"
        { company := "Tesla, Inc.", cik := "0001318605",
          accessionNumber := "0001318605-24-000002", filingDate := "2024-01-25",
          reportDate := "2023-12-31", primaryDocument := "tsla-20231231.htm" } [] []
      = ([], false,
          documents_to_try
            { company := "Tesla, Inc.", cik := "0001318605",
              accessionNumber := "0001318605-24-000002", filingDate := "2024-01-25",
              reportDate := "2023-12-31", primaryDocument := "tsla-20231231.htm" }
            "TSLA" [])) :=
  c4_content_sniff (fun _ => some "<?xml version=1.0?><xbrl>doc</xbrl>") "TSLA"
    { company := "Tesla, Inc.", cik := "0001318605",
      accessionNumber := "0001318605-24-000002", filingDate := "2024-01-25",
      reportDate := "2023-12-31", primaryDocument := "tsla-20231231.htm" } [] []
    "0001318605-24-000002" "tsla-20231231.htm" "out.htm"
    "<?xml version=1.0?><xbrl>doc</xbrl>" rfl (by decide)
    (fun d _ c' hc' => by
      have hc : "<?xml version=1.0?><xbrl>doc</xbrl>" = c' := Option.some.inj hc'
      rw [← hc]
      decide)

theorem process_pdf_skip (result : PdfFetch) (filepath : String) (fs : FS)
    (old : String) (h : fsLookup fs filepath = some old) :
    process_pdf_report result filepath fs = (fs, true, false) := by
  unfold process_pdf_report
  rw [h]
  rfl

/-- C1 (amended): the v2 engine accepts at most one successful download per
filing — on failure the directory is untouched and every candidate was
attempted; on success exactly one candidate payload was written, the
attempt log is a prefix of the candidate list, and its last entry is the
accepted candidate, so the engine stops at the first success. The skip of
an already-saved target belongs to the PDF downloader: when the target path
already exists, its per-report loop reports success with no request and
leaves the directory unchanged. The v2 engine itself performs no such skip
(see the counterexample). -/
theorem c1_single_accept_and_pdf_skip (fetch : Fetch) (ticker : String)
    (fi : FilingInfo) (indexDocs : List HtmDoc) (fs : FS)
    (result : PdfFetch) (filepath : String) (fsp : FS) (old : String)
    (hexists : fsLookup fsp filepath = some old) :
    ((download_10k fetch ticker fi indexDocs fs).2.1 = false →
      (download_10k fetch ticker fi indexDocs fs).1 = fs ∧
      (download_10k fetch ticker fi indexDocs fs).2.2
        = documents_to_try fi ticker indexDocs) ∧
    ((download_10k fetch ticker fi indexDocs fs).2.1 = true →
      ∃ d ∈ documents_to_try fi ticker indexDocs, ∃ c,
        fetch (documentUrl fi.accessionNumber d) = some c ∧
        is_xbrl_file c = false ∧
        (download_10k fetch ticker fi indexDocs fs).1
          = fsWrite fs (outputName ticker fi d) c ∧
        (download_10k fetch ticker fi indexDocs fs).2.2.getLast? = some d ∧
        ∃ n, (download_10k fetch ticker fi indexDocs fs).2.2
          = (documents_to_try fi ticker indexDocs).take n) ∧
    process_pdf_report result filepath fsp = (fsp, true, false) := by
  obtain ⟨hfail, hsucc⟩ :=
    tryDocuments_char fetch ticker fi (documents_to_try fi ticker indexDocs) fs
  exact ⟨hfail, hsucc, process_pdf_skip result filepath fsp old hexists⟩

theorem c1_witness :
    ((download_10k (fun _ => none) "TSLA"
        { company := "Tesla, Inc.", cik := "0001318605",
          accessionNumber := "0001318605-24-000002", filingDate := "2024-01-25",
          reportDate := "2023-12-31", primaryDocument := "" } [] []).2.1 = false →
      (download_10k (fun _ => none) "TSLA"
        { company := "Tesla, Inc.", cik := "0001318605",
          accessionNumber := "0001318605-24-000002", filingDate := "2024-01-25",
          reportDate := "2023-12-31", primaryDocument := "" } [] []).1 = [] ∧
      (download_10k (fun _ => none) "TSLA"
        { company := "Tesla, Inc.", cik := "0001318605",
          accessionNumber := "0001318605-24-000002", filingDate := "2024-01-25",
          reportDate := "2023-12-31", primaryDocument := "" } [] []).2.2
        = documents_to_try
            { company := "Tesla, Inc.", cik := "0001318605",
              accessionNumber := "0001318605-24-000002", filingDate := "2024-01-25",
              reportDate := "2023-12-31", primaryDocument := "" } "TSLA" []) ∧
    ((download_10k (fun _ => none) "TSLA"
        { company := "Tesla, Inc.", cik := "0001318605",
          accessionNumber := "0001318605-24-000002", filingDate := "2024-01-25",
          reportDate := "2023-12-31", primaryDocument := "" } [] []).2.1 = true →
      ∃ d ∈ documents_to_try
          { company := "Tesla, Inc.", cik := "0001318605",
            accessionNumber := "0001318605-24-000002", filingDate := "2024-01-25",
            reportDate := "2023-12-31", primaryDocument := "" } "TSLA" [], ∃ c,
        (fun _ => (none : Option String))
            (documentUrl "0001318605-24-000002" d) = some c ∧
        is_xbrl_file c = false ∧
        (download_10k (fun _ => none) "TSLA"
          { company := "Tesla, Inc.", cik := "0001318605",
            accessionNumber := "0001318605-24-000002", filingDate := "2024-01-25",
            reportDate := "2023-12-31", primaryDocument := "" } [] []).1
          = fsWrite []
              (outputName "TSLA"
                { company := "Tesla, Inc.", cik := "0001318605",
                  accessionNumber := "0001318605-24-000002",
                  filingDate := "2024-01-25", reportDate := "2023-12-31",
                  primaryDocument := "" } d) c ∧
        (download_10k (fun _ => none) "TSLA"
          { company := "Tesla, Inc.", cik := "0001318605",
            accessionNumber := "0001318605-24-000002", filingDate := "2024-01-25",
            reportDate := "2023-12-31", primaryDocument := "" } [] []).2.2.getLast?
          = some d ∧
        ∃ n, (download_10k (fun _ => none) "TSLA"
          { company := "Tesla, Inc.", cik := "0001318605",
            accessionNumber := "0001318605-24-000002", filingDate := "2024-01-25",
            reportDate := "2023-12-31", primaryDocument := "" } [] []).2.2
          = (documents_to_try
              { company := "Tesla, Inc.", cik := "0001318605",
                accessionNumber := "0001318605-24-000002", filingDate := "2024-01-25",
                reportDate := "2023-12-31", primaryDocument := "" } "TSLA" []).take n) ∧
    process_pdf_report PdfFetch.fail "Tesla_2023_10K.pdf"
      [("Tesla_2023_10K.pdf", "saved bytes")] =
      ([("Tesla_2023_10K.pdf", "saved bytes")], true, false) :=
  c1_single_accept_and_pdf_skip (fun _ => none) "TSLA"
    { company := "Tesla, Inc.", cik := "0001318605",
      accessionNumber := "0001318605-24-000002", filingDate := "2024-01-25",
      reportDate := "2023-12-31", primaryDocument := "" } [] []
    PdfFetch.fail "Tesla_2023_10K.pdf" [("Tesla_2023_10K.pdf", "saved bytes")]
    "saved bytes" rfl

/-- C1 (counterexample): re-running `download_10k` for a filing whose target
output file already exists still performs a network fetch (the attempt log
is nonempty) and overwrites the saved target with the newly fetched bytes,
refuting the no-fetch and never-overwrite parts of the claim for the v2
engine. -/
theorem c1_counterexample :
    fsLookup rerunFs "TSLA_2023-12-31_10K_filed_2024-01-25.txt"
        = some "old saved bytes" ∧
    (download_10k rerunFetch "TSLA" tslaFiling [] rerunFs).2.2 ≠ [] ∧
    fsLookup (download_10k rerunFetch "TSLA" tslaFiling [] rerunFs).1
        "TSLA_2023-12-31_10K_filed_2024-01-25.txt"
        = some "Tesla annual report, new revision" := by
  refine ⟨rfl, ?_, ?_⟩ <;> decide

/-- C8: whenever a PDF download attempt fails — also when the stream broke
after a partial write — the partial target file is removed before the
attempt reports failure, so no corrupt saved file remains; and a failed v2
document attempt never writes at all, because the payload is fully buffered
before the write, leaving the directory unchanged. -/
theorem c8_no_partial_output (result : PdfFetch) (filepath : String) (fs : FS)
    (hfail : (download_pdf result filepath fs).2 = false) :
    fsLookup (download_pdf result filepath fs).1 filepath = none ∧
    (∀ (fetch : Fetch) (accession d out : String) (fs2 : FS),
      (download_document fetch accession d out fs2).2 = false →
      (download_document fetch accession d out fs2).1 = fs2) := by
  constructor
  · have herase : ∀ fs0 : FS, fsLookup (fsErase fs0 filepath) filepath = none := by
      intro fs0
      induction fs0 with
      | nil => rfl
      | cons p rest ih =>
        by_cases hp : p.1 = filepath
        · simp only [fsErase, fsLookup] at ih ⊢
          rw [List.filter_cons_of_neg (by simp [hp])]
          exact ih
        · simp only [fsErase, fsLookup] at ih ⊢
          rw [List.filter_cons_of_pos (by simp [hp]), List.find?_cons_of_neg _ (by simp [hp])]
          exact ih
    cases result with
    | fail => exact herase fs
    | midFail part => exact herase (fsWrite fs filepath part)
    | ok content => cases hfail
  · intro fetch accession d out fs2 hf
    cases hres : fetch (documentUrl accession d) with
    | none => rw [download_document_none fetch accession d out fs2 hres]
    | some c =>
      by_cases hx : is_xbrl_file c = true
      · rw [download_document_xbrl fetch accession d out fs2 c hres hx]
      · have hx2 : is_xbrl_file c = false := by
          cases h2 : is_xbrl_file c
          · rfl
          · exact absurd h2 hx
        rw [download_document_ok fetch accession d out fs2 c hres hx2] at hf
        exact Bool.noConfusion hf

theorem c8_no_partial_output_witness :
    fsLookup (download_pdf (PdfFetch.midFail "partial by")
        "Tesla_2023_10K.pdf" [("Tesla_2023_10K.pdf", "old")]).1
      "Tesla_2023_10K.pdf" = none ∧
    (∀ (fetch : Fetch) (accession d out : String) (fs2 : FS),
      (download_document fetch accession d out fs2).2 = false →
      (download_document fetch accession d out fs2).1 = fs2) :=
  c8_no_partial_output (PdfFetch.midFail "partial by") "Tesla_2023_10K.pdf"
    [("Tesla_2023_10K.pdf", "old")] rfl

/-- C5 (counterexample): on the literal scenario inputs the code disagrees
with the claimed numbers: the name tsla-20231231.htm is 17 characters long
and bears digits among its first 10 characters, so with size 500000 it
scores 75 and not 125; and ex10_agreement.htm matches none of the
exclusion patterns, so it survives filtering rather than being excluded. -/
theorem c5_counterexample :
    "tsla-20231231.htm".toList.length = 17 ∧
    priorityScore "tsla-20231231.htm" 500000 = 75 ∧
    priorityScore "tsla-20231231.htm" 500000 ≠ 125 ∧
    (isHtmlName "ex10_agreement.htm" && !isExcluded "ex10_agreement.htm") = true := by
  refine ⟨?_, ?_, ?_, ?_⟩ <;> decide

/-- C5 (amended scenario): for ticker TSLA with accession
0001318605-24-000002, report date 2023-12-31 and filing date 2024-01-25,
the directory entry tsla-20231231.htm (size 500000) scores 25 + 50 = 75 and
the retained entry ex10_agreement.htm (size 80000) scores 25 + 8 = 33; the
candidate list starts with the combined text 000131860524000002.txt, the
directory entries follow (the declared primary document coincides with the
top entry and is de-duplicated), and when the combined text fails,
tsla-20231231.htm is tried next, passes the content sniff, and is saved as
TSLA_2023-12-31_10K_filed_2024-01-25.htm. -/
theorem c5_scenario :
    get_filing_index_docs [tslaItem, ex10Item]
      = [{ name := "tsla-20231231.htm", size := 500000, typ := "10-K", priority := 75 },
         { name := "ex10_agreement.htm", size := 80000, typ := "EX-10", priority := 33 }] ∧
    documents_to_try tslaFiling "TSLA" (get_filing_index_docs [tslaItem, ex10Item])
      = ["000131860524000002.txt", "tsla-20231231.htm", "ex10_agreement.htm",
         "tsla10k_20231231.htm", "tsla_10k.htm", "form10-k.htm", "form10k.htm"] ∧
    scenarioFetch (documentUrl "0001318605-24-000002" "000131860524000002.txt") = none ∧
    download_10k scenarioFetch "TSLA" tslaFiling
        (get_filing_index_docs [tslaItem, ex10Item]) []
      = ([("TSLA_2023-12-31_10K_filed_2024-01-25.htm",
           "<html><body>Tesla 10-K annual report</body></html>")], true,
         ["000131860524000002.txt", "tsla-20231231.htm"]) := by
  refine ⟨?_, ?_, ?_, ?_⟩ <;> decide

/-- C9 (counterexample): for the unknown ticker ZZZZ the resolver performs
no outbound request at all — in particular it does not fetch a bulk
ticker-directory resource once, it fetches nothing — and returns no
identifier. -/
theorem c9_counterexample :
    get_cik "ZZZZ" = (none, []) ∧ (get_cik "ZZZZ").2.length ≠ 1 := by
  refine ⟨?_, ?_⟩ <;> decide

/-- C9 (amended): for every ticker not found in the static mapping, the
resolver (v1 and v2 alike) performs no outbound request and returns
NotFound, never raising: both are total functions returning `none` with an
empty request log. -/
theorem c9_not_found (ticker : String)
    (h : TICKER_TO_CIK.find? (fun p => decide (p.1 = strUpper ticker)) = none) :
    get_cik ticker = (none, []) ∧ get_cik_from_ticker ticker = (none, []) := by
  simp only [get_cik, get_cik_from_ticker]
  rw [h]
  exact ⟨rfl, rfl⟩

theorem c9_not_found_witness :
    get_cik "ZZZZ" = (none, []) ∧ get_cik_from_ticker "ZZZZ" = (none, []) :=
  c9_not_found "ZZZZ" (by decide)

theorem natPrintAux_stable :
    ∀ j m, m < j → natPrintAux j m = natPrintAux (j + 1) m := by
  intro j
  induction j with
  | zero => intro m hm; exact absurd hm (Nat.not_lt_zero m)
  | succ j ih =>
    intro m hm
    show (if m < 10 then [digitChar m] else natPrintAux j (m / 10) ++ [digitChar (m % 10)])
      = (if m < 10 then [digitChar m]
         else natPrintAux (j + 1) (m / 10) ++ [digitChar (m % 10)])
    by_cases h10 : m < 10
    · rw [if_pos h10, if_pos h10]
    · rw [if_neg h10, if_neg h10, ih (m / 10) (by omega)]

theorem natPrintAux_eq_natPrint : ∀ j m, m < j → natPrintAux j m = natPrint m := by
  intro j
  induction j with
  | zero => intro m hm; exact absurd hm (Nat.not_lt_zero m)
  | succ j ih =>
    intro m hm
    by_cases hj : m < j
    · rw [← natPrintAux_stable j m hj]
      exact ih m hj
    · have hjm : j = m := by omega
      subst hjm
      rfl

theorem natPrint_small (n : Nat) (h : n < 10) : natPrint n = [digitChar n] := by
  show (if n < 10 then [digitChar n] else _) = _
  rw [if_pos h]

theorem natPrint_step (n : Nat) (h : 10 ≤ n) :
    natPrint n = natPrint (n / 10) ++ [digitChar (n % 10)] := by
  show (if n < 10 then [digitChar n]
      else natPrintAux n (n / 10) ++ [digitChar (n % 10)]) = _
  rw [if_neg (by omega), natPrintAux_eq_natPrint n (n / 10) (by omega)]

theorem digitVal_lt_ten {c : Char} (hc : c ∈ digitChars) : digitVal c < 10 := by
  fin_cases hc <;> decide

theorem digitChar_digitVal {c : Char} (hc : c ∈ digitChars) :
    digitChar (digitVal c) = c := by
  fin_cases hc <;> decide

theorem digitVal_pos {c : Char} (hc : c ∈ digitChars) (h0 : c ≠ '0') :
    1 ≤ digitVal c := by
  fin_cases hc
  · exact absurd rfl h0
  all_goals decide

theorem foldl_digits_zeros : ∀ l : List Char, (∀ c ∈ l, c = '0') →
    l.foldl (fun n c => 10 * n + digitVal c) 0 = 0 := by
  intro l
  induction l with
  | nil => intro _; rfl
  | cons c cs ih =>
    intro h
    rw [List.foldl_cons]
    have hc : c = '0' := h c (List.mem_cons_self c cs)
    subst hc
    show cs.foldl (fun n c => 10 * n + digitVal c) 0 = 0
    exact ih fun c hc => h c (List.mem_cons_of_mem _ hc)

theorem foldl_digits_ge_one : ∀ (l : List Char) (n : Nat), 1 ≤ n →
    1 ≤ l.foldl (fun n c => 10 * n + digitVal c) n := by
  intro l
  induction l with
  | nil => intro n h; exact h
  | cons c cs ih =>
    intro n h
    rw [List.foldl_cons]
    exact ih _ (by omega)

theorem natParse_pos (c : Char) (rest : List Char) (hc : c ∈ digitChars)
    (h0 : c ≠ '0') : 1 ≤ natParse (c :: rest) := by
  unfold natParse
  rw [List.foldl_cons]
  have h1 := digitVal_pos hc h0
  exact foldl_digits_ge_one rest _ (by omega)

theorem natPrint_natParse (c : Char) :
    ∀ rest : List Char, c ∈ digitChars → c ≠ '0' →
      (∀ d ∈ rest, d ∈ digitChars) →
      natPrint (natParse (c :: rest)) = c :: rest := by
  intro rest
  induction rest using List.reverseRecOn with
  | nil =>
    intro hc _ _
    have hval : natParse [c] = digitVal c := by
      unfold natParse
      rw [List.foldl_cons, List.foldl_nil]
      omega
    rw [hval, natPrint_small (digitVal c) (digitVal_lt_ten hc),
      digitChar_digitVal hc]
  | append_singleton rs d ih =>
    intro hc h0 hds
    have hd : d ∈ digitChars := hds d (by simp)
    have hrs : ∀ d' ∈ rs, d' ∈ digitChars := fun d' hd' => hds d' (by simp [hd'])
    have hsplit : natParse (c :: (rs ++ [d]))
        = 10 * natParse (c :: rs) + digitVal d := by
      unfold natParse
      rw [← List.cons_append, List.foldl_append, List.foldl_cons, List.foldl_nil]
    rw [hsplit]
    have ha := natParse_pos c rs hc h0
    have hv := digitVal_lt_ten hd
    have h10 : 10 ≤ 10 * natParse (c :: rs) + digitVal d := by omega
    rw [natPrint_step _ h10]
    have hdiv : (10 * natParse (c :: rs) + digitVal d) / 10 = natParse (c :: rs) := by
      omega
    have hmod : (10 * natParse (c :: rs) + digitVal d) % 10 = digitVal d := by
      omega
    rw [hdiv, hmod, ih hc h0 hrs, digitChar_digitVal hd, List.cons_append]

theorem dropWhile_head_not (p : Char → Bool) :
    ∀ (l : List Char) (c : Char) (rest : List Char),
      l.dropWhile p = c :: rest → p c = false := by
  intro l
  induction l with
  | nil => intro c rest h; cases h
  | cons x xs ih =>
    intro c rest h
    rw [List.dropWhile_cons] at h
    by_cases hx : p x = true
    · rw [if_pos hx] at h
      exact ih c rest h
    · rw [if_neg hx] at h
      injection h with h1 _
      subst h1
      cases hpx : p x
      · rfl
      · exact absurd hpx hx

/-- C10: for every accession reference whose prefix before the first dash
is a nonempty all-digit string, the v1 leading-zero stripping
(lstrip of zeros with fallback "0") and the v2 stripping (str of int)
produce the same identifier string; in particular both yield "0" for an
all-zero prefix. -/
theorem c10_cik_stripping (s : String)
    (_hne : accessionPre s ≠ [])
    (hdig : ∀ c ∈ accessionPre s, c ∈ digitChars) :
    v1_accession_cik s = v2_accession_cik s := by
  simp only [v1_accession_cik, v2_accession_cik]
  have hsplit : (accessionPre s).takeWhile (fun c => decide (c = '0'))
      ++ (accessionPre s).dropWhile (fun c => decide (c = '0')) = accessionPre s :=
    List.takeWhile_append_dropWhile _ _
  by_cases htnil : (accessionPre s).dropWhile (fun c => decide (c = '0')) = []
  · rw [if_pos htnil]
    have hall0 : ∀ c ∈ accessionPre s, c = '0' := by
      intro c hc
      rw [← hsplit, htnil, List.append_nil] at hc
      have h1 := @List.mem_takeWhile_imp Char (fun c => decide (c = '0'))
        (accessionPre s) c hc
      exact of_decide_eq_true h1
    have hz : natParse (accessionPre s) = 0 := by
      unfold natParse
      exact foldl_digits_zeros _ hall0
    rw [hz]
    rfl
  · rw [if_neg htnil]
    obtain ⟨c, rest, hcons⟩ : ∃ c rest,
        (accessionPre s).dropWhile (fun c => decide (c = '0')) = c :: rest := by
      cases hl : (accessionPre s).dropWhile (fun c => decide (c = '0')) with
      | nil => exact absurd hl htnil
      | cons a as => exact ⟨a, as, rfl⟩
    have hc0 : c ≠ '0' := by
      have := dropWhile_head_not _ _ c rest hcons
      intro hc
      rw [hc] at this
      simp at this
    have hmem : ∀ d ∈ c :: rest, d ∈ digitChars := by
      intro d hd
      apply hdig
      rw [← hsplit, hcons]
      exact List.mem_append_right _ hd
    have hparse : natParse (accessionPre s) = natParse (c :: rest) := by
      unfold natParse
      rw [← hsplit, List.foldl_append, hcons]
      have hz : ((accessionPre s).takeWhile (fun c => decide (c = '0'))).foldl
          (fun n c => 10 * n + digitVal c) 0 = 0 := by
        apply foldl_digits_zeros
        intro c' hc'
        have h1 := @List.mem_takeWhile_imp Char (fun c => decide (c = '0'))
          (accessionPre s) c' hc'
        exact of_decide_eq_true h1
      rw [hz]
    rw [hcons, hparse,
      natPrint_natParse c rest (hmem c (List.mem_cons_self c rest)) hc0
        (fun d hd => hmem d (List.mem_cons_of_mem c hd))]

theorem c10_cik_stripping_witness :
    accessionPre "0001318605-24-000002" ≠ [] ∧
    (∀ c ∈ accessionPre "0001318605-24-000002", c ∈ digitChars) ∧
    v1_accession_cik "0001318605-24-000002"
      = v2_accession_cik "0001318605-24-000002" :=
  ⟨by decide, by decide,
    c10_cik_stripping "0001318605-24-000002" (by decide) (by decide)⟩

end FinanceData
